import Mathlib

/-
Verification of the VertexAI chat adapter
(src/libs/langchain/langchain/chat_models/vertexai.py).

The Python module is shallowly embedded below.  Messages, the history
parser `_parse_chat_history`, the example parser `_parse_examples`, and
the orchestrator methods `_generate` / `_stream` of `ChatVertexAI` are
translated function by function.  Python exceptions become an explicit
error type; calls on the external vendor client are recorded in a trace
of `ClientOp` values, and the vendor responses are supplied by a small
`Client` oracle.
-/

set_option autoImplicit false
set_option linter.unusedVariables false

namespace VertexAI

/-- A chat message: the data model of the module restricted to the three
role tags the specification admits (`system` / `human` / `ai`), each
carrying its text content.  Mirrors `SystemMessage` / `HumanMessage` /
`AIMessage` from `langchain.schema.messages`. -/
inductive Msg where
  | system (content : String)
  | human (content : String)
  | ai (content : String)
  deriving DecidableEq, Repr

/-- The text content of a message (`message.content`). -/
def Msg.content : Msg → String
  | .system c => c
  | .human c => c
  | .ai c => c

/-- The `.type` attribute of a message (its role string). -/
def Msg.type : Msg → String
  | .system _ => "system"
  | .human _ => "human"
  | .ai _ => "ai"

/-- The Python class name of a message, modelling what `type(message)`
renders in error messages. -/
def Msg.className : Msg → String
  | .system _ => "SystemMessage"
  | .human _ => "HumanMessage"
  | .ai _ => "AIMessage"

/-- `isinstance(message, HumanMessage)`. -/
def Msg.isHumanMsg : Msg → Bool
  | .human _ => true
  | _ => false

/-- `isinstance(message, AIMessage)`. -/
def Msg.isAIMsg : Msg → Bool
  | .ai _ => true
  | _ => false

/-- `isinstance(message, SystemMessage)`. -/
def Msg.isSystemMsg : Msg → Bool
  | .system _ => true
  | _ => false

/-- A message that is an ordinary conversation turn (human or ai). -/
def Msg.isChatTurn : Msg → Bool
  | .human _ => true
  | .ai _ => true
  | _ => false

/-- The vendor-format turn `vertexai.language_models.ChatMessage`:
text content plus an author tag (`"user"` or `"bot"`). -/
structure ChatMessage where
  content : String
  author : String
  deriving DecidableEq, Repr

/-- The dataclass `_ChatHistory`: a context and a history of messages. -/
structure _ChatHistory where
  history : List ChatMessage := []
  context : Option String := none
  deriving DecidableEq, Repr

/-- The vendor-format example pair
`vertexai.language_models.InputOutputTextPair`.  The `input_text` field
is an `Option` because the Python local feeding it is initialised to
`None` before the loop assigns it. -/
structure InputOutputTextPair where
  input_text : Option String
  output_text : String
  deriving DecidableEq, Repr

/-- The errors (Python `ValueError`s) the module can raise, one
constructor per distinct `raise` site:
`emptyConversation` for an empty message list,
`invalidLastMessage` for a final message that is not human (carries the
final message's `.type`),
`unexpectedMessage` for a bad message inside the history (carries the
position and class name),
`oddExampleCount` for an odd number of example messages,
`badExampleHuman` / `badExampleAI` for a wrong role at an even / odd
offset of the example list (carrying the offset and class name). -/
inductive VError where
  | emptyConversation
  | invalidLastMessage (actualType : String)
  | unexpectedMessage (pos : Nat) (msgClass : String)
  | oddExampleCount (count : Nat)
  | badExampleHuman (pos : Nat) (msgClass : String)
  | badExampleAI (pos : Nat) (msgClass : String)
  deriving DecidableEq, Repr

/-- The loop of `_parse_chat_history`, with the enumeration index `i`,
the `context` variable and the accumulated `vertex_messages` made
explicit.  A `SystemMessage` at position 0 sets the context; `AIMessage`
and `HumanMessage` append a vendor turn; anything else (here: a system
message at a non-zero position) raises. -/
def parseLoop : List Msg → Nat → Option String → List ChatMessage →
    Except VError _ChatHistory
  | [], _i, context, acc => Except.ok { history := acc, context := context }
  | Msg.system c :: rest, i, context, acc =>
    if i = 0 then parseLoop rest (i + 1) (some c) acc
    else Except.error (VError.unexpectedMessage i (Msg.system c).className)
  | Msg.ai c :: rest, i, context, acc =>
    parseLoop rest (i + 1) context (acc ++ [⟨c, "bot"⟩])
  | Msg.human c :: rest, i, context, acc =>
    parseLoop rest (i + 1) context (acc ++ [⟨c, "user"⟩])

/-- `_parse_chat_history`: parse a sequence of messages into a
`_ChatHistory`. -/
def _parse_chat_history (history : List Msg) : Except VError _ChatHistory :=
  parseLoop history 0 none []

/-- The loop of `_parse_examples`, with the enumeration index `i`, the
`input_text` variable and the accumulated `example_pairs` explicit.  At
an even index the message must be human (its content becomes
`input_text`); at an odd index it must be ai (a pair is appended). -/
def exLoop : List Msg → Nat → Option String → List InputOutputTextPair →
    Except VError (List InputOutputTextPair)
  | [], _i, _input_text, acc => Except.ok acc
  | e :: rest, i, input_text, acc =>
    if i % 2 = 0 then
      match e with
      | Msg.human c => exLoop rest (i + 1) (some c) acc
      | _ => Except.error (VError.badExampleHuman i e.className)
    else
      match e with
      | Msg.ai c => exLoop rest (i + 1) input_text (acc ++ [⟨input_text, c⟩])
      | _ => Except.error (VError.badExampleAI i e.className)

/-- `_parse_examples`: an odd number of example messages raises at once;
otherwise the list is walked pairwise. -/
def _parse_examples (examples : List Msg) :
    Except VError (List InputOutputTextPair) :=
  if examples.length % 2 ≠ 0 then
    Except.error (VError.oddExampleCount examples.length)
  else exLoop examples 0 none []

/-- A value stored in the keyword-parameter dictionaries.  The claims
only exercise the `examples` key, whose value is a raw message list on
input and a parsed pair list after `_parse_examples`; every other value
is kept opaque. -/
inductive PVal where
  | msgList (ms : List Msg)
  | exList (ps : List InputOutputTextPair)
  | opaqueVal (tag : String)
  deriving DecidableEq, Repr

/-- A Python keyword dictionary, as an insertion-ordered association
list with distinct keys. -/
abbrev Params := List (String × PVal)

/-- `d.get(k, None)`: the value stored under `k`, if any. -/
def lookupKey (d : Params) (k : String) : Option PVal :=
  (d.find? (fun kv => kv.1 = k)).map (fun kv => kv.2)

/-- The dictionary merge `{**d1, **d2}`: keys of `d1` in order with
values overridden by `d2` on collision, then the new keys of `d2`. -/
def dictMerge (d1 d2 : Params) : Params :=
  (d1.map (fun kv => (kv.1, ((lookupKey d2 kv.1).getD kv.2)))) ++
    d2.filter (fun kv => (lookupKey d1 kv.1).isNone)

/-- The dictionary update `d[k] = v`: replace in place when the key is
present, append otherwise. -/
def dictSet (d : Params) (k : String) (v : PVal) : Params :=
  if (d.find? (fun kv => kv.1 = k)).isSome then
    d.map (fun kv => if kv.1 = k then (k, v) else kv)
  else d ++ [(k, v)]

/-- A generation inside a `ChatResult`: the sync path wraps
`ChatGeneration(message=AIMessage(content))`, the stream path yields
`ChatGenerationChunk(message=AIMessageChunk(content))`. -/
inductive ChatGen where
  | gen (content : String)
  | chunk (content : String)
  deriving DecidableEq, Repr

/-- `ChatResult`: the list of generations returned by `_generate`. -/
structure ChatResult where
  generations : List ChatGen
  deriving DecidableEq, Repr

/-- One operation invoked on the external vendor client, recorded with
exactly the arguments the source passes: `start_chat` receives the
context (only for non-codey models), the parsed history and the merged
parameters; `send_message` receives only the question text;
`send_message_streaming` receives the question text and the merged
parameters again. -/
inductive ClientOp where
  | startChat (context : Option String) (message_history : List ChatMessage)
      (params : Params)
  | startChatCodey (message_history : List ChatMessage) (params : Params)
  | sendMessage (text : String)
  | sendMessageStreaming (text : String) (params : Params)
  deriving DecidableEq, Repr

/-- The external vendor client, as an oracle for the response texts: the
`.text` of the `send_message` response and the `.text`s of the finite
`send_message_streaming` response sequence. -/
structure Client where
  respText : String
  respStream : List String
  deriving DecidableEq, Repr

/-- The configuration of a `ChatVertexAI` instance.  `model_name` and
`streaming` are the fields declared in the source.  `default_params`
and `is_codey_model` come from the base class `_VertexAICommon`, which
is not under src/; they are modelled from the spec as an abstract
default-parameter mapping and a boolean capability fixed per instance
("a pure predicate over the model name"). -/
structure ChatVertexAI where
  model_name : String := "chat-bison"
  streaming : Option Bool := some false
  default_params : Params := []
  is_codey_model : Bool := false
  deriving DecidableEq, Repr

/-- The Python expression `history.context if history.context else None`:
an absent or empty context string is flattened to `None`. -/
def truthyOrNone : Option String → Option String
  | some s => if s = "" then none else some s
  | none => none

/-- One truncation step helper: the text before the first position at
which some stop word occurs. -/
def truncAt : List Char → List (List Char) → List Char
  | [], _ => []
  | c :: rest, ws =>
    if ws.any (fun w => List.isPrefixOf w (c :: rest)) then []
    else c :: truncAt rest ws

/-- Modelled from the spec: `_enforce_stop_words` from `_VertexAICommon`
(not under src/) — "a string whose first occurrence in generated text
truncates the output before that point"; with no stop word configured
the text is returned unchanged. -/
def enforce_stop_words (text : String) (stop : Option (List String)) : String :=
  match stop with
  | some ws =>
    if ws.isEmpty then text
    else String.mk (truncAt text.data (ws.map String.data))
  | none => text

/-- `ChatVertexAI._stream`: validates the conversation, parses the
history, merges the parameters (parsing `examples` when supplied),
opens a session and streams the answer to the final human message.
Returns the yielded chunks (or the raised error) together with the
trace of client operations. -/
def _stream (self : ChatVertexAI) (client : Client) (messages : List Msg)
    (stop : Option (List String)) (run_manager : Bool) (kwargs : Params) :
    Except VError (List ChatGen) × List ClientOp :=
  match messages.getLast? with
  | none => (Except.error VError.emptyConversation, [])
  | some question =>
    match question with
    | Msg.human qc =>
      match _parse_chat_history messages.dropLast with
      | Except.error e => (Except.error e, [])
      | Except.ok history =>
        let context := truthyOrNone history.context
        let params := dictMerge self.default_params kwargs
        let exRes : Except VError Params :=
          match lookupKey kwargs "examples" with
          | some (PVal.msgList ms) =>
            if ms.isEmpty then Except.ok params
            else
              match _parse_examples ms with
              | Except.ok pairs =>
                Except.ok (dictSet params "examples" (PVal.exList pairs))
              | Except.error e => Except.error e
          | _ => Except.ok params
        match exRes with
        | Except.error e => (Except.error e, [])
        | Except.ok params =>
          let chatOp :=
            if ¬ self.is_codey_model then
              ClientOp.startChat context history.history params
            else ClientOp.startChatCodey history.history params
          let chunks := client.respStream.map
            (fun t => ChatGen.chunk (enforce_stop_words t stop))
          (Except.ok chunks, [chatOp, ClientOp.sendMessageStreaming qc params])
    | q => (Except.error (VError.invalidLastMessage q.type), [])

/-- `ChatVertexAI._generate`: when the resolved streaming flag is set it
delegates to `_stream` and wraps the collected chunks in a
`ChatResult`; otherwise it validates, parses, opens a session, sends
the final human message once and wraps the stop-word-enforced response
text as a single `ChatGeneration`.  The per-call `stream` argument is
declared in the source with default `False`; `streamDefault` below
names that default. -/
def _generate (self : ChatVertexAI) (client : Client) (messages : List Msg)
    (stop : Option (List String)) (run_manager : Bool) (stream : Option Bool)
    (kwargs : Params) : Except VError ChatResult × List ClientOp :=
  let shouldStream :=
    match stream with
    | some b => b
    | none =>
      match self.streaming with
      | some b => b
      | none => false
  if shouldStream then
    match _stream self client messages stop run_manager kwargs with
    | (Except.ok chunks, tr) => (Except.ok ⟨chunks⟩, tr)
    | (Except.error e, tr) => (Except.error e, tr)
  else
    match messages.getLast? with
    | none => (Except.error VError.emptyConversation, [])
    | some question =>
      match question with
      | Msg.human qc =>
        match _parse_chat_history messages.dropLast with
        | Except.error e => (Except.error e, [])
        | Except.ok history =>
          let context := truthyOrNone history.context
          let params := dictMerge self.default_params kwargs
          let exRes : Except VError Params :=
            match lookupKey kwargs "examples" with
            | some (PVal.msgList ms) =>
              if ms.isEmpty then Except.ok params
              else
                match _parse_examples ms with
                | Except.ok pairs =>
                  Except.ok (dictSet params "examples" (PVal.exList pairs))
                | Except.error e => Except.error e
            | _ => Except.ok params
          match exRes with
          | Except.error e => (Except.error e, [])
          | Except.ok params =>
            let chatOp :=
              if ¬ self.is_codey_model then
                ClientOp.startChat context history.history params
              else ClientOp.startChatCodey history.history params
            let text := enforce_stop_words client.respText stop
            (Except.ok ⟨[ChatGen.gen text]⟩,
              [chatOp, ClientOp.sendMessage qc])
      | q => (Except.error (VError.invalidLastMessage q.type), [])

/-- The declared default of the `stream` parameter of `_generate`
(`stream: Optional[bool] = False` in the source): the value the
parameter takes when the caller does not supply it. -/
def streamDefault : Option Bool := some false

/-- The vendor turns a list of human/ai messages parses to: `ai`
becomes author `"bot"`, `human` becomes author `"user"`, in order
(systems contribute no turn). -/
def turnsOf : List Msg → List ChatMessage
  | [] => []
  | Msg.system _ :: t => turnsOf t
  | Msg.ai c :: t => ⟨c, "bot"⟩ :: turnsOf t
  | Msg.human c :: t => ⟨c, "user"⟩ :: turnsOf t

/-- The pair list a correctly alternating example list parses to. -/
def pairsOf : List Msg → List InputOutputTextPair
  | Msg.human a :: Msg.ai b :: t => ⟨some a, b⟩ :: pairsOf t
  | _ => []

/-- Correct human/ai alternation of an example list: human at every
even offset, ai at every odd offset, even length. -/
def altHA : List Msg → Bool
  | [] => true
  | Msg.human _ :: Msg.ai _ :: t => altHA t
  | _ => false

/-- A role violation in an example list, relative to a starting loop
index `i`: some element sits at an even absolute index without being
human, or at an odd absolute index without being ai. -/
def violFrom (i : Nat) (l : List Msg) : Prop :=
  ∃ k m, l[k]? = some m ∧
    (((i + k) % 2 = 0 ∧ m.isHumanMsg = false) ∨
     ((i + k) % 2 = 1 ∧ m.isAIMsg = false))

/-- A default non-codey instance used by concrete witnesses. -/
def cfg0 : ChatVertexAI := {}

/-- An instance whose instance-level streaming default is set. -/
def cfgStreamTrue : ChatVertexAI := { streaming := some true }

/-- A concrete client oracle used by concrete witnesses: one complete
response `"R"`, streamed partial responses `"A"`, `"B"`, `"C"`. -/
def client0 : Client := { respText := "R", respStream := ["A", "B", "C"] }

/-- Consuming a block of plain chat turns advances the parse loop by its
length and appends its vendor turns. -/
lemma parseLoop_append_chatTurn (l : List Msg)
    (h : ∀ x ∈ l, x.isChatTurn = true) :
    ∀ (l' : List Msg) (i : Nat) (ctx : Option String) (acc : List ChatMessage),
      parseLoop (l ++ l') i ctx acc
        = parseLoop l' (i + l.length) ctx (acc ++ turnsOf l) := by
  induction l with
  | nil => intro l' i ctx acc; simp [turnsOf]
  | cons m t ih =>
    intro l' i ctx acc
    have hm : m.isChatTurn = true := h m (by simp)
    have ht : ∀ x ∈ t, x.isChatTurn = true := fun x hx => h x (by simp [hx])
    cases m with
    | system c => simp [Msg.isChatTurn] at hm
    | ai c =>
      rw [List.cons_append]
      rw [show parseLoop (Msg.ai c :: (t ++ l')) i ctx acc
            = parseLoop (t ++ l') (i + 1) ctx (acc ++ [⟨c, "bot"⟩]) from rfl]
      rw [ih ht]
      have hi : i + 1 + t.length = i + (Msg.ai c :: t).length := by
        simp; omega
      rw [hi]
      simp [turnsOf]
    | human c =>
      rw [List.cons_append]
      rw [show parseLoop (Msg.human c :: (t ++ l')) i ctx acc
            = parseLoop (t ++ l') (i + 1) ctx (acc ++ [⟨c, "user"⟩]) from rfl]
      rw [ih ht]
      have hi : i + 1 + t.length = i + (Msg.human c :: t).length := by
        simp; omega
      rw [hi]
      simp [turnsOf]

/-- A list of plain chat turns always parses, to its vendor turns with
the incoming context. -/
lemma parseLoop_chatTurn (l : List Msg) (h : ∀ x ∈ l, x.isChatTurn = true)
    (i : Nat) (ctx : Option String) (acc : List ChatMessage) :
    parseLoop l i ctx acc = Except.ok ⟨acc ++ turnsOf l, ctx⟩ := by
  have h0 := parseLoop_append_chatTurn l h [] i ctx acc
  simpa [parseLoop] using h0

/-- A leading system message only sets the context and starts the loop
at index 1. -/
lemma parse_system_cons (c : String) (rest : List Msg) :
    _parse_chat_history (Msg.system c :: rest) = parseLoop rest 1 (some c) [] := by
  simp [_parse_chat_history, parseLoop]

/-- Evaluation of the non-streaming `_generate` path on a conversation
whose history parses and whose kwargs carry no examples: one
`start_chat` with the truthiness-flattened context and merged
parameters, then one `send_message` with only the question text. -/
lemma generate_sync_eval (self : ChatVertexAI) (client : Client)
    (stop : Option (List String)) (rm : Bool) (kwargs : Params)
    (ms : List Msg) (q : String) (ch : _ChatHistory)
    (hp : _parse_chat_history ms = Except.ok ch)
    (hc : self.is_codey_model = false)
    (hk : lookupKey kwargs "examples" = none) :
    _generate self client (ms ++ [Msg.human q]) stop rm (some false) kwargs
      = (Except.ok ⟨[ChatGen.gen (enforce_stop_words client.respText stop)]⟩,
         [ClientOp.startChat (truthyOrNone ch.context) ch.history
            (dictMerge self.default_params kwargs),
          ClientOp.sendMessage q]) := by
  simp [_generate, List.getLast?_concat, List.dropLast_concat, hp, hk, hc]

/-- Evaluation of `_stream` on the same shape of input: one
`start_chat` with the truthiness-flattened context and merged
parameters, then one `send_message_streaming` carrying the question
text and the merged parameters again; every streamed response text is
stop-word enforced and wrapped as a chunk, in order. -/
lemma stream_eval (self : ChatVertexAI) (client : Client)
    (stop : Option (List String)) (rm : Bool) (kwargs : Params)
    (ms : List Msg) (q : String) (ch : _ChatHistory)
    (hp : _parse_chat_history ms = Except.ok ch)
    (hc : self.is_codey_model = false)
    (hk : lookupKey kwargs "examples" = none) :
    _stream self client (ms ++ [Msg.human q]) stop rm kwargs
      = (Except.ok (client.respStream.map
            (fun t => ChatGen.chunk (enforce_stop_words t stop))),
         [ClientOp.startChat (truthyOrNone ch.context) ch.history
            (dictMerge self.default_params kwargs),
          ClientOp.sendMessageStreaming q
            (dictMerge self.default_params kwargs)]) := by
  simp [_stream, List.getLast?_concat, List.dropLast_concat, hp, hk, hc]

/-- With an explicit `stream=True`, `_generate` delegates to `_stream`
and wraps whatever chunk list it yields. -/
lemma generate_delegates_to_stream (self : ChatVertexAI) (client : Client)
    (stop : Option (List String)) (rm : Bool) (kwargs : Params)
    (messages : List Msg) :
    _generate self client messages stop rm (some true) kwargs
      = (match _stream self client messages stop rm kwargs with
         | (Except.ok chunks, tr) => (Except.ok ⟨chunks⟩, tr)
         | (Except.error e, tr) => (Except.error e, tr)) := by
  simp [_generate]

/-- C3: for every call of `_generate` or `_stream`, an empty message
list fails with the empty-conversation error, and a non-empty list whose
last element is not a human message fails with the invalid-last-message
error carrying that element's actual role; in both cases the recorded
client trace is empty, so the failure precedes any session creation or
message send on the external client. -/
theorem validation_errors_precede_client_ops :
    ∀ (self : ChatVertexAI) (client : Client) (stop : Option (List String))
      (rm : Bool) (stream : Option Bool) (kwargs : Params),
      (_generate self client [] stop rm stream kwargs
          = (Except.error VError.emptyConversation, [])
        ∧ _stream self client [] stop rm kwargs
          = (Except.error VError.emptyConversation, []))
      ∧ ∀ (messages : List Msg) (m : Msg),
          messages.getLast? = some m → m.isHumanMsg = false →
          (_generate self client messages stop rm stream kwargs
              = (Except.error (VError.invalidLastMessage m.type), [])
            ∧ _stream self client messages stop rm kwargs
              = (Except.error (VError.invalidLastMessage m.type), [])) := by
  intro self client stop rm stream kwargs
  constructor
  · constructor
    · simp [_generate, _stream]
    · simp [_stream]
  · intro messages m hlast hm
    cases m with
    | human c => simp [Msg.isHumanMsg] at hm
    | system c =>
      constructor
      · simp [_generate, _stream, hlast, Msg.type]
      · simp [_stream, hlast, Msg.type]
    | ai c =>
      constructor
      · simp [_generate, _stream, hlast, Msg.type]
      · simp [_stream, hlast, Msg.type]

/-- C3 witness: concrete instances of both failure modes. -/
theorem validation_errors_precede_client_ops_witness :
    _generate cfg0 client0 [] none false streamDefault []
        = (Except.error VError.emptyConversation, [])
      ∧ _stream cfg0 client0 [Msg.human "a", Msg.ai "x"] none false []
        = (Except.error (VError.invalidLastMessage "ai"), []) := by
  refine ⟨(validation_errors_precede_client_ops cfg0 client0 none false
      streamDefault []).1.1, ?_⟩
  exact ((validation_errors_precede_client_ops cfg0 client0 none false
      streamDefault []).2 [Msg.human "a", Msg.ai "x"] (Msg.ai "x") rfl rfl).2

/-- C4: a leading system message becomes the context and is excluded
from the turns; the remaining ai / human messages become bot / user
turns in input order.  In particular, on the conversation
[System "You are terse", Human "Hi", AI "Hello", Human "How are you?"]
the orchestrator opens the session with context "You are terse" and
turns user-"Hi", bot-"Hello", and sends the question "How are you?". -/
theorem system_head_sets_context_and_turns (c : String) (rest : List Msg)
    (h : ∀ x ∈ rest, x.isChatTurn = true) :
    _parse_chat_history (Msg.system c :: rest)
        = Except.ok ⟨turnsOf rest, some c⟩
      ∧ ∀ (self : ChatVertexAI) (client : Client) (stop : Option (List String))
          (rm : Bool) (kwargs : Params),
          self.is_codey_model = false →
          lookupKey kwargs "examples" = none →
          (_generate self client
              [Msg.system "You are terse", Msg.human "Hi", Msg.ai "Hello",
               Msg.human "How are you?"] stop rm (some false) kwargs).2
            = [ClientOp.startChat (some "You are terse")
                 [⟨"Hi", "user"⟩, ⟨"Hello", "bot"⟩]
                 (dictMerge self.default_params kwargs),
               ClientOp.sendMessage "How are you?"] := by
  constructor
  · rw [parse_system_cons, parseLoop_chatTurn rest h 1 (some c) []]
    simp
  · intro self client stop rm kwargs hc hk
    have hp : _parse_chat_history
        [Msg.system "You are terse", Msg.human "Hi", Msg.ai "Hello"]
        = Except.ok ⟨[⟨"Hi", "user"⟩, ⟨"Hello", "bot"⟩], some "You are terse"⟩ := rfl
    have h2 := generate_sync_eval self client stop rm kwargs
      [Msg.system "You are terse", Msg.human "Hi", Msg.ai "Hello"]
      "How are you?" _ hp hc hk
    rw [show ([Msg.system "You are terse", Msg.human "Hi", Msg.ai "Hello"]
          ++ [Msg.human "How are you?"])
        = [Msg.system "You are terse", Msg.human "Hi", Msg.ai "Hello",
           Msg.human "How are you?"] from rfl] at h2
    rw [h2]
    simp [truthyOrNone]

/-- C4 witness: the scenario itself, with a concrete instance. -/
theorem system_head_sets_context_and_turns_witness :
    _parse_chat_history
        [Msg.system "You are terse", Msg.human "Hi", Msg.ai "Hello"]
        = Except.ok ⟨[⟨"Hi", "user"⟩, ⟨"Hello", "bot"⟩], some "You are terse"⟩
      ∧ (_generate cfg0 client0
          [Msg.system "You are terse", Msg.human "Hi", Msg.ai "Hello",
           Msg.human "How are you?"] none false (some false) []).2
        = [ClientOp.startChat (some "You are terse")
             [⟨"Hi", "user"⟩, ⟨"Hello", "bot"⟩] [],
           ClientOp.sendMessage "How are you?"] := by
  have h := system_head_sets_context_and_turns "You are terse"
    [Msg.human "Hi", Msg.ai "Hello"] (by decide)
  exact ⟨h.1, h.2 cfg0 client0 none false [] rfl rfl⟩

/-- C5: for every non-empty message sequence that ends in a human
message and has system messages only at index 0, parsing the history
(all messages but the last) never reaches the error branch of
`_parse_chat_history`. -/
theorem valid_history_parse_never_fails (messages : List Msg)
    (h1 : ∃ q, messages.getLast? = some (Msg.human q))
    (h2 : ∀ k m, messages[k]? = some m → m.isSystemMsg = true → k = 0) :
    ∃ ch, _parse_chat_history messages.dropLast = Except.ok ch := by
  obtain ⟨q, hq⟩ := h1
  cases messages with
  | nil => simp at hq
  | cons m t =>
    have htchat : ∀ x ∈ t, x.isChatTurn = true := by
      intro x hx
      obtain ⟨n, hn⟩ := List.getElem?_of_mem hx
      have hx' : (m :: t)[n + 1]? = some x := by
        simpa [List.getElem?_cons_succ] using hn
      cases x with
      | system c => exact absurd (h2 (n + 1) _ hx' rfl) (by omega)
      | human c => rfl
      | ai c => rfl
    cases m with
    | system c =>
      cases t with
      | nil => simp [List.getLast?] at hq
      | cons y u =>
        have hd : (Msg.system c :: y :: u).dropLast
            = Msg.system c :: (y :: u).dropLast := rfl
        rw [hd, parse_system_cons]
        have hchat : ∀ x ∈ (y :: u).dropLast, x.isChatTurn = true := by
          intro x hx
          exact htchat x (List.dropLast_subset _ hx)
        rw [parseLoop_chatTurn _ hchat 1 (some c) []]
        exact ⟨_, rfl⟩
    | human c =>
      have hall : ∀ x ∈ (Msg.human c :: t).dropLast, x.isChatTurn = true := by
        intro x hx
        rcases List.mem_cons.mp (List.dropLast_subset _ hx) with hx' | hx'
        · rw [hx']; rfl
        · exact htchat x hx'
      rw [_parse_chat_history, parseLoop_chatTurn _ hall 0 none []]
      exact ⟨_, rfl⟩
    | ai c =>
      have hall : ∀ x ∈ (Msg.ai c :: t).dropLast, x.isChatTurn = true := by
        intro x hx
        rcases List.mem_cons.mp (List.dropLast_subset _ hx) with hx' | hx'
        · rw [hx']; rfl
        · exact htchat x hx'
      rw [_parse_chat_history, parseLoop_chatTurn _ hall 0 none []]
      exact ⟨_, rfl⟩

/-- C5 witness: a concrete valid conversation parses. -/
theorem valid_history_parse_never_fails_witness :
    ∃ ch, _parse_chat_history
        ([Msg.system "s", Msg.human "hi", Msg.ai "yo", Msg.human "q"].dropLast)
      = Except.ok ch :=
  valid_history_parse_never_fails
    [Msg.system "s", Msg.human "hi", Msg.ai "yo", Msg.human "q"]
    ⟨"q", rfl⟩ (by
      intro k m hk hs
      rcases k with _ | _ | _ | _ | k <;>
        simp_all [Msg.isSystemMsg] <;> subst hk <;> simp at hs)

/-- C6: a system message at a position strictly greater than zero, with
all earlier positions holding valid human/ai messages (or a system
message only at position 0), makes `_parse_chat_history` fail with the
unexpected-message error citing that position and the system class. -/
theorem system_after_head_fails_with_index (pre : List Msg) (c : String)
    (rest : List Msg) (hlen : 0 < pre.length)
    (hpre : ∀ k m, pre[k]? = some m →
      m.isChatTurn = true ∨ (k = 0 ∧ m.isSystemMsg = true)) :
    _parse_chat_history (pre ++ Msg.system c :: rest)
      = Except.error (VError.unexpectedMessage pre.length "SystemMessage") := by
  cases pre with
  | nil => simp at hlen
  | cons p pre' =>
    have hpre' : ∀ x ∈ pre', x.isChatTurn = true := by
      intro x hx
      obtain ⟨n, hn⟩ := List.getElem?_of_mem hx
      have hx' : (p :: pre')[n + 1]? = some x := by
        simpa [List.getElem?_cons_succ] using hn
      rcases hpre (n + 1) x hx' with hc | ⟨h0, _⟩
      · exact hc
      · omega
    rcases hpre 0 p (by simp) with hp | ⟨_, hps⟩
    · have hall : ∀ x ∈ (p :: pre'), x.isChatTurn = true := by
        intro x hx
        rcases List.mem_cons.mp hx with hx' | hx'
        · rw [hx']; exact hp
        · exact hpre' x hx'
      rw [_parse_chat_history,
        parseLoop_append_chatTurn (p :: pre') hall (Msg.system c :: rest) 0 none []]
      simp [parseLoop, Msg.className]
    · cases p with
      | human c0 => simp [Msg.isSystemMsg] at hps
      | ai c0 => simp [Msg.isSystemMsg] at hps
      | system c0 =>
        rw [List.cons_append, parse_system_cons,
          parseLoop_append_chatTurn pre' hpre' (Msg.system c :: rest) 1 (some c0) []]
        simp [parseLoop, Msg.className, Nat.add_comm]

/-- C6 witness: a system message at position 1 after a human message. -/
theorem system_after_head_fails_with_index_witness :
    _parse_chat_history [Msg.human "a", Msg.system "x", Msg.ai "b"]
      = Except.error (VError.unexpectedMessage 1 "SystemMessage") := by
  have h := system_after_head_fails_with_index [Msg.human "a"] "x" [Msg.ai "b"]
    (by decide) (by
      intro k m hk
      rcases k with _ | k
      · simp at hk; subst hk; exact Or.inl rfl
      · rcases k with _ | k <;> simp at hk)
  simpa using h

/-- On a correctly alternating example list the example loop succeeds
and appends one pair per human/ai couple, in order. -/
lemma exLoop_alt : ∀ (l : List Msg), altHA l = true → ∀ (i : Nat), i % 2 = 0 →
    ∀ (it : Option String) (acc : List InputOutputTextPair),
    exLoop l i it acc = Except.ok (acc ++ pairsOf l)
  | [], _, i, _, it, acc => by simp [exLoop, pairsOf]
  | Msg.human a :: Msg.ai b :: t, h, i, hi, it, acc => by
    have ht : altHA t = true := by simpa [altHA] using h
    have h2 : (i + 1) % 2 = 1 := by omega
    have s1 : exLoop (Msg.human a :: (Msg.ai b :: t)) i it acc
        = exLoop (Msg.ai b :: t) (i + 1) (some a) acc := by
      simp [exLoop, hi]
    have s2 : exLoop (Msg.ai b :: t) (i + 1) (some a) acc
        = exLoop t (i + 1 + 1) (some a) (acc ++ [⟨some a, b⟩]) := by
      simp [exLoop, h2]
    have ih := exLoop_alt t ht (i + 1 + 1) (by omega) (some a)
      (acc ++ [{ input_text := some a, output_text := b }])
    rw [s1, s2, ih]
    simp [pairsOf]
  | Msg.system c :: t, h, i, hi, it, acc => by simp [altHA] at h
  | Msg.ai c :: t, h, i, hi, it, acc => by simp [altHA] at h
  | [Msg.human a], h, i, hi, it, acc => by simp [altHA] at h
  | Msg.human a :: Msg.system c :: t, h, i, hi, it, acc => by simp [altHA] at h
  | Msg.human a :: Msg.human c :: t, h, i, hi, it, acc => by simp [altHA] at h

/-- A correctly alternating example list yields one pair per couple. -/
lemma pairsOf_length : ∀ (l : List Msg), altHA l = true →
    (pairsOf l).length = l.length / 2
  | [], _ => by simp [pairsOf]
  | Msg.human a :: Msg.ai b :: t, h => by
    have ht : altHA t = true := by simpa [altHA] using h
    have ih := pairsOf_length t ht
    simp [pairsOf, ih]
    omega
  | Msg.system c :: t, h => by simp [altHA] at h
  | Msg.ai c :: t, h => by simp [altHA] at h
  | [Msg.human a], h => by simp [altHA] at h
  | Msg.human a :: Msg.system c :: t, h => by simp [altHA] at h
  | Msg.human a :: Msg.human c :: t, h => by simp [altHA] at h

/-- The k-th pair of a correctly alternating example list is built from
the messages at offsets 2k and 2k+1. -/
lemma pairsOf_get : ∀ (l : List Msg), altHA l = true →
    ∀ (k : Nat) (p : InputOutputTextPair), (pairsOf l)[k]? = some p →
    ∃ a b, l[2 * k]? = some (Msg.human a) ∧ l[2 * k + 1]? = some (Msg.ai b) ∧
      p = ⟨some a, b⟩
  | [], _, k, p => by simp [pairsOf]
  | Msg.human a :: Msg.ai b :: t, h, k, p => by
    have ht : altHA t = true := by simpa [altHA] using h
    cases k with
    | zero =>
      intro hp
      simp [pairsOf] at hp
      exact ⟨a, b, by simp, by simp, hp.symm⟩
    | succ k =>
      intro hp
      have hp' : (pairsOf t)[k]? = some p := by simpa [pairsOf] using hp
      obtain ⟨a', b', hg1, hg2, hg3⟩ := pairsOf_get t ht k p hp'
      refine ⟨a', b', ?_, ?_, hg3⟩
      · have he : 2 * (k + 1) = 2 * k + 1 + 1 := by omega
        rw [he]
        simpa [List.getElem?_cons_succ] using hg1
      · have he : 2 * (k + 1) + 1 = 2 * k + 1 + 1 + 1 := by omega
        rw [he]
        simpa [List.getElem?_cons_succ] using hg2
  | Msg.system c :: t, h, k, p => by simp [altHA] at h
  | Msg.ai c :: t, h, k, p => by simp [altHA] at h
  | [Msg.human a], h, k, p => by simp [altHA] at h
  | Msg.human a :: Msg.system c :: t, h, k, p => by simp [altHA] at h
  | Msg.human a :: Msg.human c :: t, h, k, p => by simp [altHA] at h

/-- An even-length list with humans at even offsets and ais at odd
offsets alternates correctly. -/
lemma altHA_of_index : ∀ (l : List Msg), l.length % 2 = 0 →
    (∀ k m, l[k]? = some m →
      (k % 2 = 0 → m.isHumanMsg = true) ∧ (k % 2 = 1 → m.isAIMsg = true)) →
    altHA l = true
  | [], _, _ => rfl
  | [m], hlen, _ => by simp at hlen
  | x :: y :: t, hlen, hidx => by
    have hx := (hidx 0 x (by simp)).1 (by omega)
    have hy := (hidx 1 y (by simp)).2 (by omega)
    cases x with
    | system c => simp [Msg.isHumanMsg] at hx
    | ai c => simp [Msg.isHumanMsg] at hx
    | human a =>
      cases y with
      | system c => simp [Msg.isAIMsg] at hy
      | human c => simp [Msg.isAIMsg] at hy
      | ai b =>
        have hlen' : t.length % 2 = 0 := by
          simp [List.length_cons] at hlen
          omega
        have hidx' : ∀ k m, t[k]? = some m →
            (k % 2 = 0 → m.isHumanMsg = true) ∧ (k % 2 = 1 → m.isAIMsg = true) := by
          intro k m hk
          have hk' : (Msg.human a :: Msg.ai b :: t)[k + 1 + 1]? = some m := by
            simpa [List.getElem?_cons_succ] using hk
          have hres := hidx (k + 1 + 1) m hk'
          constructor
          · intro h0; exact hres.1 (by omega)
          · intro h1; exact hres.2 (by omega)
        simpa [altHA] using altHA_of_index t hlen' hidx'

/-- C7: on an example list of even length with a human message at every
even offset and an ai message at every odd offset, `_parse_examples`
succeeds with exactly length/2 pairs, the k-th pair pairing the content
of the message at offset 2k (input) with the content of the message at
offset 2k+1 (output), in input order. -/
theorem examples_even_alternating_pairs (l : List Msg)
    (h1 : l.length % 2 = 0)
    (h2 : ∀ k m, l[k]? = some m →
      (k % 2 = 0 → m.isHumanMsg = true) ∧ (k % 2 = 1 → m.isAIMsg = true)) :
    ∃ ps, _parse_examples l = Except.ok ps ∧ ps.length = l.length / 2 ∧
      ∀ k p, ps[k]? = some p →
        ∃ a b, l[2 * k]? = some (Msg.human a) ∧ l[2 * k + 1]? = some (Msg.ai b) ∧
          p.input_text = some a ∧ p.output_text = b := by
  have halt := altHA_of_index l h1 h2
  refine ⟨pairsOf l, ?_, pairsOf_length l halt, ?_⟩
  · rw [_parse_examples]
    simp [h1]
    simpa using exLoop_alt l halt 0 (by omega) none []
  · intro k p hp
    obtain ⟨a, b, ha, hb, hpe⟩ := pairsOf_get l halt k p hp
    exact ⟨a, b, ha, hb, by rw [hpe], by rw [hpe]⟩

/-- C7 witness: the spec scenario, one pair from [Human "2+2", AI "4"]. -/
theorem examples_even_alternating_pairs_witness :
    ∃ ps, _parse_examples [Msg.human "2+2", Msg.ai "4"] = Except.ok ps ∧
      ps.length = [Msg.human "2+2", Msg.ai "4"].length / 2 ∧
      ∀ k p, ps[k]? = some p →
        ∃ a b, [Msg.human "2+2", Msg.ai "4"][2 * k]? = some (Msg.human a) ∧
          [Msg.human "2+2", Msg.ai "4"][2 * k + 1]? = some (Msg.ai b) ∧
          p.input_text = some a ∧ p.output_text = b :=
  examples_even_alternating_pairs [Msg.human "2+2", Msg.ai "4"] rfl (by
    intro k m hk
    rcases k with _ | _ | k
    · simp at hk; subst hk
      exact ⟨fun _ => rfl, fun h => by simp at h⟩
    · simp at hk; subst hk
      exact ⟨fun h => by simp at h, fun _ => rfl⟩
    · simp at hk)

/-- The example loop never raises the odd-count error: that error comes
only from the length check before the loop. -/
lemma exLoop_no_odd (l : List Msg) : ∀ (i : Nat) (it : Option String)
    (acc : List InputOutputTextPair) (n : Nat),
    exLoop l i it acc ≠ Except.error (VError.oddExampleCount n) := by
  induction l with
  | nil => intro i it acc n; simp [exLoop]
  | cons e t ih =>
    intro i it acc n
    by_cases hi : i % 2 = 0
    · cases e with
      | human c => simpa [exLoop, hi] using ih (i + 1) (some c) acc n
      | system c => simp [exLoop, hi]
      | ai c => simp [exLoop, hi]
    · cases e with
      | ai c =>
        simpa [exLoop, hi] using
          ih (i + 1) it (acc ++ [{ input_text := it, output_text := c }]) n
      | system c => simp [exLoop, hi]
      | human c => simp [exLoop, hi]

/-- If the example loop succeeds there is no role violation relative to
its starting index. -/
lemma exLoop_ok_no_viol (l : List Msg) : ∀ (i : Nat) (it : Option String)
    (acc ps : List InputOutputTextPair),
    exLoop l i it acc = Except.ok ps → ¬ violFrom i l := by
  induction l with
  | nil =>
    intro i it acc ps _
    rintro ⟨k, m, hk, _⟩
    simp at hk
  | cons x t ih =>
    intro i it acc ps hok
    by_cases hi : i % 2 = 0
    · cases x with
      | human c =>
        have hok' : exLoop t (i + 1) (some c) acc = Except.ok ps := by
          simpa [exLoop, hi] using hok
        have hnv := ih (i + 1) (some c) acc ps hok'
        rintro ⟨k, m, hk, hv⟩
        cases k with
        | zero =>
          simp at hk
          subst hk
          rcases hv with ⟨hp, hh⟩ | ⟨hp, _⟩
          · simp [Msg.isHumanMsg] at hh
          · omega
        | succ k =>
          apply hnv
          refine ⟨k, m, by simpa using hk, ?_⟩
          rcases hv with ⟨hp, hh⟩ | ⟨hp, hh⟩
          · exact Or.inl ⟨by omega, hh⟩
          · exact Or.inr ⟨by omega, hh⟩
      | system c => simp [exLoop, hi] at hok
      | ai c => simp [exLoop, hi] at hok
    · cases x with
      | ai c =>
        have hok' : exLoop t (i + 1) it
            (acc ++ [{ input_text := it, output_text := c }]) = Except.ok ps := by
          simpa [exLoop, hi] using hok
        have hnv := ih (i + 1) it
          (acc ++ [{ input_text := it, output_text := c }]) ps hok'
        rintro ⟨k, m, hk, hv⟩
        cases k with
        | zero =>
          simp at hk
          subst hk
          rcases hv with ⟨hp, _⟩ | ⟨hp, hh⟩
          · omega
          · simp [Msg.isAIMsg] at hh
        | succ k =>
          apply hnv
          refine ⟨k, m, by simpa using hk, ?_⟩
          rcases hv with ⟨hp, hh⟩ | ⟨hp, hh⟩
          · exact Or.inl ⟨by omega, hh⟩
          · exact Or.inr ⟨by omega, hh⟩
      | system c => simp [exLoop, hi] at hok
      | human c => simp [exLoop, hi] at hok

/-- Every error of the example loop is a role error citing a violating
absolute index together with the offending message's class. -/
lemma exLoop_error_cites (l : List Msg) : ∀ (i : Nat) (it : Option String)
    (acc : List InputOutputTextPair) (e : VError),
    exLoop l i it acc = Except.error e →
    ∃ k m, l[k]? = some m ∧
      (((i + k) % 2 = 0 ∧ m.isHumanMsg = false ∧
          e = VError.badExampleHuman (i + k) m.className) ∨
       ((i + k) % 2 = 1 ∧ m.isAIMsg = false ∧
          e = VError.badExampleAI (i + k) m.className)) := by
  induction l with
  | nil => intro i it acc e h; simp [exLoop] at h
  | cons x t ih =>
    intro i it acc e h
    by_cases hi : i % 2 = 0
    · cases x with
      | human c =>
        have h' : exLoop t (i + 1) (some c) acc = Except.error e := by
          simpa [exLoop, hi] using h
        obtain ⟨k, m, hk, hv⟩ := ih (i + 1) (some c) acc e h'
        refine ⟨k + 1, m, by simpa using hk, ?_⟩
        have harith : i + (k + 1) = i + 1 + k := by omega
        rw [harith]
        exact hv
      | system c =>
        simp [exLoop, hi] at h
        refine ⟨0, Msg.system c, by simp, Or.inl ⟨by omega, rfl, ?_⟩⟩
        rw [← h]
        simp
      | ai c =>
        simp [exLoop, hi] at h
        refine ⟨0, Msg.ai c, by simp, Or.inl ⟨by omega, rfl, ?_⟩⟩
        rw [← h]
        simp
    · cases x with
      | ai c =>
        have h' : exLoop t (i + 1) it
            (acc ++ [{ input_text := it, output_text := c }]) = Except.error e := by
          simpa [exLoop, hi] using h
        obtain ⟨k, m, hk, hv⟩ := ih (i + 1) it
          (acc ++ [{ input_text := it, output_text := c }]) e h'
        refine ⟨k + 1, m, by simpa using hk, ?_⟩
        have harith : i + (k + 1) = i + 1 + k := by omega
        rw [harith]
        exact hv
      | system c =>
        simp [exLoop, hi] at h
        refine ⟨0, Msg.system c, by simp, Or.inr ⟨by omega, rfl, ?_⟩⟩
        rw [← h]
        simp
      | human c =>
        simp [exLoop, hi] at h
        refine ⟨0, Msg.human c, by simp, Or.inr ⟨by omega, rfl, ?_⟩⟩
        rw [← h]
        simp

/-- C8: `_parse_examples` fails with the odd-count error exactly on
odd-length inputs (citing the length); on even-length inputs it fails
exactly when some even offset holds a non-human message or some odd
offset holds a non-ai message, and every such failure is a role error
citing a violating offset, the expected role (via the error kind) and
the offending message's actual class. -/
theorem examples_error_classification (l : List Msg) :
    ((∃ n, _parse_examples l = Except.error (VError.oddExampleCount n)) ↔
      l.length % 2 = 1)
    ∧ (l.length % 2 = 1 →
        _parse_examples l = Except.error (VError.oddExampleCount l.length))
    ∧ (l.length % 2 = 0 →
        ((∃ e, _parse_examples l = Except.error e) ↔ violFrom 0 l)
        ∧ ∀ e, _parse_examples l = Except.error e →
            ∃ k m, l[k]? = some m ∧
              ((k % 2 = 0 ∧ m.isHumanMsg = false ∧
                  e = VError.badExampleHuman k m.className) ∨
               (k % 2 = 1 ∧ m.isAIMsg = false ∧
                  e = VError.badExampleAI k m.className))) := by
  refine ⟨⟨?_, ?_⟩, ?_, ?_⟩
  · rintro ⟨n, hn⟩
    rcases Nat.mod_two_eq_zero_or_one l.length with he | ho
    · simp [_parse_examples, he] at hn
      exact absurd hn (exLoop_no_odd l 0 none [] n)
    · exact ho
  · intro ho
    exact ⟨l.length, by simp [_parse_examples, ho]⟩
  · intro ho
    simp [_parse_examples, ho]
  · intro he
    constructor
    · constructor
      · rintro ⟨e, hee⟩
        have hee' : exLoop l 0 none [] = Except.error e := by
          simpa [_parse_examples, he] using hee
        obtain ⟨k, m, hk, hv⟩ := exLoop_error_cites l 0 none [] e hee'
        refine ⟨k, m, hk, ?_⟩
        rcases hv with ⟨h1, h2, _⟩ | ⟨h1, h2, _⟩
        · exact Or.inl ⟨h1, h2⟩
        · exact Or.inr ⟨h1, h2⟩
      · intro hv
        cases hres : exLoop l 0 none [] with
        | ok ps => exact absurd hv (exLoop_ok_no_viol l 0 none [] ps hres)
        | error e =>
          refine ⟨e, ?_⟩
          simpa [_parse_examples, he] using hres
    · intro e hee
      have hee' : exLoop l 0 none [] = Except.error e := by
        simpa [_parse_examples, he] using hee
      obtain ⟨k, m, hk, hv⟩ := exLoop_error_cites l 0 none [] e hee'
      refine ⟨k, m, hk, ?_⟩
      simpa using hv

/-- C8 witness: an odd-length list fails with the count error; an
even-length list with an ai message at offset 0 fails. -/
theorem examples_error_classification_witness :
    _parse_examples [Msg.human "a"] = Except.error (VError.oddExampleCount 1)
    ∧ ∃ e, _parse_examples [Msg.ai "x", Msg.ai "y"] = Except.error e :=
  ⟨(examples_error_classification [Msg.human "a"]).2.1 rfl,
   ((examples_error_classification [Msg.ai "x", Msg.ai "y"]).2.2 rfl).1.mpr
     ⟨0, Msg.ai "x", rfl, Or.inl ⟨rfl, rfl⟩⟩⟩

/-- C1 (code defect exhibit): with the instance-level streaming default
set (`streaming = some true`) and the per-call `stream` argument left at
its declared default (`False`), `_generate` takes the NON-streaming path
— one `send_message`, one complete generation — because the declared
default `False` short-circuits the `stream is not None` test, so the
instance-level default is never consulted; only an explicit
`stream=None` reaches it (third conjunct). -/
theorem generate_default_stream_flag_ignores_instance_default :
    (_generate cfgStreamTrue client0 [Msg.human "q"] none false streamDefault []).1
        = Except.ok ⟨[ChatGen.gen "R"]⟩
      ∧ (_generate cfgStreamTrue client0 [Msg.human "q"] none false streamDefault []).2
        = [ClientOp.startChat none [] [], ClientOp.sendMessage "q"]
      ∧ (_generate cfgStreamTrue client0 [Msg.human "q"] none false none []).1
        = Except.ok ⟨[ChatGen.chunk "A", ChatGen.chunk "B", ChatGen.chunk "C"]⟩ :=
  ⟨rfl, rfl, rfl⟩

/-- C2 counterexample: with the streaming flag set and streamed partial
responses "A", "B", "C", `_generate` returns three chunk generations in
order, not a single complete ai generation "ABC". -/
theorem generate_streaming_returns_chunk_list_not_concat :
    (_generate cfg0 client0 [Msg.human "q"] none false (some true) []).1
        = Except.ok ⟨[ChatGen.chunk "A", ChatGen.chunk "B", ChatGen.chunk "C"]⟩
      ∧ (_generate cfg0 client0 [Msg.human "q"] none false (some true) []).1
        ≠ Except.ok ⟨[ChatGen.gen "ABC"]⟩ := by
  constructor
  · rfl
  · intro hcontra
    have h1 : (_generate cfg0 client0 [Msg.human "q"] none false (some true) []).1
        = Except.ok ⟨[ChatGen.chunk "A", ChatGen.chunk "B", ChatGen.chunk "C"]⟩ := rfl
    rw [h1] at hcontra
    simp at hcontra

/-- C2 amended: with the streaming flag set and no stop word configured,
`_generate` collects the chunks of the streaming path into one
`ChatResult`, one chunk generation per partial response, texts unchanged
and in stream order (no concatenation into a single generation). -/
theorem generate_streaming_collects_chunks_in_order (self : ChatVertexAI)
    (client : Client) (rm : Bool) (kwargs : Params) (ms : List Msg) (q : String)
    (ch : _ChatHistory)
    (hp : _parse_chat_history ms = Except.ok ch)
    (hc : self.is_codey_model = false)
    (hk : lookupKey kwargs "examples" = none) :
    (_generate self client (ms ++ [Msg.human q]) none rm (some true) kwargs).1
      = Except.ok ⟨client.respStream.map ChatGen.chunk⟩ := by
  rw [generate_delegates_to_stream,
    stream_eval self client none rm kwargs ms q ch hp hc hk]
  simp [enforce_stop_words]

/-- C2 amended witness: the "A","B","C" scenario with a concrete
instance. -/
theorem generate_streaming_collects_chunks_in_order_witness :
    (_generate cfg0 client0 [Msg.human "q"] none false (some true) []).1
      = Except.ok ⟨[ChatGen.chunk "A", ChatGen.chunk "B", ChatGen.chunk "C"]⟩ :=
  generate_streaming_collects_chunks_in_order cfg0 client0 false [] [] "q"
    ⟨[], none⟩ rfl rfl rfl

/-- C9: an empty leading system message yields context `None` at the
session boundary, for both the sync and the streaming path — the client
trace opens the session with no context — and the whole call is
indistinguishable from the same call without the system message. -/
theorem empty_system_context_treated_absent (self : ChatVertexAI)
    (client : Client) (stop : Option (List String)) (rm : Bool) (kwargs : Params)
    (rest : List Msg) (q : String)
    (h1 : ∀ x ∈ rest, x.isChatTurn = true)
    (hc : self.is_codey_model = false)
    (hk : lookupKey kwargs "examples" = none) :
    _generate self client (Msg.system "" :: (rest ++ [Msg.human q])) stop rm
        (some false) kwargs
        = _generate self client (rest ++ [Msg.human q]) stop rm (some false) kwargs
      ∧ _stream self client (Msg.system "" :: (rest ++ [Msg.human q])) stop rm kwargs
        = _stream self client (rest ++ [Msg.human q]) stop rm kwargs
      ∧ (_generate self client (Msg.system "" :: (rest ++ [Msg.human q])) stop rm
          (some false) kwargs).2
        = [ClientOp.startChat none (turnsOf rest)
             (dictMerge self.default_params kwargs),
           ClientOp.sendMessage q]
      ∧ (_stream self client (Msg.system "" :: (rest ++ [Msg.human q])) stop rm
          kwargs).2
        = [ClientOp.startChat none (turnsOf rest)
             (dictMerge self.default_params kwargs),
           ClientOp.sendMessageStreaming q
             (dictMerge self.default_params kwargs)] := by
  have hpS : _parse_chat_history (Msg.system "" :: rest)
      = Except.ok ⟨turnsOf rest, some ""⟩ := by
    rw [parse_system_cons, parseLoop_chatTurn rest h1 1 (some "") []]
    simp
  have hpN : _parse_chat_history rest = Except.ok ⟨turnsOf rest, none⟩ := by
    rw [_parse_chat_history, parseLoop_chatTurn rest h1 0 none []]
    simp
  have e1 := generate_sync_eval self client stop rm kwargs
    (Msg.system "" :: rest) q _ hpS hc hk
  have e2 := generate_sync_eval self client stop rm kwargs rest q _ hpN hc hk
  have e3 := stream_eval self client stop rm kwargs
    (Msg.system "" :: rest) q _ hpS hc hk
  have e4 := stream_eval self client stop rm kwargs rest q _ hpN hc hk
  rw [show (Msg.system "" :: rest) ++ [Msg.human q]
      = Msg.system "" :: (rest ++ [Msg.human q]) from rfl] at e1 e3
  refine ⟨?_, ?_, ?_, ?_⟩
  · rw [e1, e2]; simp [truthyOrNone]
  · rw [e3, e4]; simp [truthyOrNone]
  · rw [e1]; simp [truthyOrNone]
  · rw [e3]; simp [truthyOrNone]

/-- C9 witness: a concrete conversation led by an empty system message
opens the streaming session with context `None`. -/
theorem empty_system_context_treated_absent_witness :
    (_stream cfg0 client0 (Msg.system "" :: ([Msg.ai "h"] ++ [Msg.human "q"]))
        none false []).2
      = [ClientOp.startChat none (turnsOf [Msg.ai "h"])
           (dictMerge cfg0.default_params []),
         ClientOp.sendMessageStreaming "q" (dictMerge cfg0.default_params [])] :=
  (empty_system_context_treated_absent cfg0 client0 none false [] [Msg.ai "h"] "q"
    (by decide) rfl rfl).2.2.2

/-- C10: the sync path passes the merged parameters to `start_chat` only
and sends the bare question text via `send_message`, whereas the stream
path passes the merged parameters both to `start_chat` and, together
with the question text, to `send_message_streaming`. -/
theorem params_forwarding_sync_vs_stream (self : ChatVertexAI) (client : Client)
    (stop : Option (List String)) (rm : Bool) (kwargs : Params)
    (ms : List Msg) (q : String) (ch : _ChatHistory)
    (hp : _parse_chat_history ms = Except.ok ch)
    (hc : self.is_codey_model = false)
    (hk : lookupKey kwargs "examples" = none) :
    (_generate self client (ms ++ [Msg.human q]) stop rm (some false) kwargs).2
        = [ClientOp.startChat (truthyOrNone ch.context) ch.history
             (dictMerge self.default_params kwargs),
           ClientOp.sendMessage q]
      ∧ (_stream self client (ms ++ [Msg.human q]) stop rm kwargs).2
        = [ClientOp.startChat (truthyOrNone ch.context) ch.history
             (dictMerge self.default_params kwargs),
           ClientOp.sendMessageStreaming q
             (dictMerge self.default_params kwargs)] := by
  constructor
  · rw [generate_sync_eval self client stop rm kwargs ms q ch hp hc hk]
  · rw [stream_eval self client stop rm kwargs ms q ch hp hc hk]

/-- C10 witness: with one opaque call-time option, the option mapping
reaches `start_chat` on both paths and `send_message_streaming` on the
stream path, while `send_message` carries only the question. -/
theorem params_forwarding_sync_vs_stream_witness :
    (_generate cfg0 client0 [Msg.human "q"] none false (some false)
        [("k", PVal.opaqueVal "v")]).2
        = [ClientOp.startChat none [] [("k", PVal.opaqueVal "v")],
           ClientOp.sendMessage "q"]
      ∧ (_stream cfg0 client0 [Msg.human "q"] none false
          [("k", PVal.opaqueVal "v")]).2
        = [ClientOp.startChat none [] [("k", PVal.opaqueVal "v")],
           ClientOp.sendMessageStreaming "q" [("k", PVal.opaqueVal "v")]] :=
  params_forwarding_sync_vs_stream cfg0 client0 none false
    [("k", PVal.opaqueVal "v")] [] "q" ⟨[], none⟩ rfl rfl rfl

end VertexAI
